import Mathlib

/-!
Shallow embedding of the codetango barrier-protocol client
(`src/include/codetango.h`, `src/src/codetango.cpp`).

C++ byte strings are modelled as `List Char` (one `Char` per byte; the
client only ever manipulates bytes).  The socket environment (result of
`getenv`, `socket`, `connect`, `send`, `recv`) is passed in explicitly as
a record of outcomes, and the I/O the client performs is returned as an
explicit action trace.
-/

deriving instance DecidableEq for Except

namespace Codetango

/-- Byte strings of the C++ client, one `Char` per byte. -/
abbrev Str := List Char

/-- The NUL byte, which terminates the C++ response buffer. -/
def nulChar : Char := Char.ofNat 0

/-- Lowercase hexadecimal digit, as produced by `std::hex` on an `int`. -/
def hexDigitChar (n : Nat) : Char :=
  if n < 10 then Char.ofNat (48 + n) else Char.ofNat (87 + n)

/-- Four-digit zero-padded lowercase hex rendering, as produced by
`std::hex << std::setw(4) << std::setfill('0')` for values below 0x10000. -/
def hex4 (n : Nat) : Str :=
  [hexDigitChar (n / 4096 % 16), hexDigitChar (n / 256 % 16),
   hexDigitChar (n / 16 % 16), hexDigitChar (n % 16)]

/-- Per-character body of `Barrier::escape_json_string`: the `switch` on the
character, with the default branch escaping control bytes 0x00-0x1f as
`\u00XX` and passing every other byte through unchanged. -/
def escChar (c : Char) : Str :=
  if c = '\"' then ['\\', '\"']
  else if c = '\\' then ['\\', '\\']
  else if c = '\x08' then ['\\', 'b']
  else if c = '\x0c' then ['\\', 'f']
  else if c = '\n' then ['\\', 'n']
  else if c = '\r' then ['\\', 'r']
  else if c = '\t' then ['\\', 't']
  else if c.toNat ≤ 31 then '\\' :: 'u' :: hex4 c.toNat
  else [c]

/-- `Barrier::escape_json_string`: the loop over the characters of the
input, appending the escape of each. -/
def escape_json_string (s : Str) : Str := s.flatMap escChar

/-- Value of a hexadecimal digit character, as read by a standard JSON
decoder for `\uXXXX` escapes. -/
def hexVal (c : Char) : Option Nat :=
  if 48 ≤ c.toNat ∧ c.toNat ≤ 57 then some (c.toNat - 48)
  else if 97 ≤ c.toNat ∧ c.toNat ≤ 102 then some (c.toNat - 87)
  else if 65 ≤ c.toNat ∧ c.toNat ≤ 70 then some (c.toNat - 55)
  else none

/-- Standard JSON string-body decoder (RFC 8259 escapes): processes the
characters between the quotes of a JSON string literal, resolving the two
character escapes, the named control escapes, `\/` and `\uXXXX`, and
rejecting stray backslashes, raw quotes and raw control characters. -/
def unescape_json : Str → Option Str
  | [] => some []
  | c :: rest =>
    if c = '\\' then
      match rest with
      | [] => none
      | e :: t =>
        if e = '\"' then (unescape_json t).map (fun r => '\"' :: r)
        else if e = '\\' then (unescape_json t).map (fun r => '\\' :: r)
        else if e = '/' then (unescape_json t).map (fun r => '/' :: r)
        else if e = 'b' then (unescape_json t).map (fun r => '\x08' :: r)
        else if e = 'f' then (unescape_json t).map (fun r => '\x0c' :: r)
        else if e = 'n' then (unescape_json t).map (fun r => '\n' :: r)
        else if e = 'r' then (unescape_json t).map (fun r => '\r' :: r)
        else if e = 't' then (unescape_json t).map (fun r => '\t' :: r)
        else if e = 'u' then
          match t with
          | h1 :: h2 :: h3 :: h4 :: t2 =>
            match hexVal h1, hexVal h2, hexVal h3, hexVal h4 with
            | some a, some b, some c2, some d =>
              (unescape_json t2).map
                (fun r => Char.ofNat (((a * 16 + b) * 16 + c2) * 16 + d) :: r)
            | _, _, _, _ => none
          | _ => none
        else none
    else if c = '\"' ∨ c.toNat ≤ 31 then none
    else (unescape_json rest).map (fun r => c :: r)

/-- Boolean test that `needle` is an initial segment of `hay`. -/
def startsWithTok : Str → Str → Bool
  | [], _ => true
  | _ :: _, [] => false
  | a :: as, b :: bs => a = b && startsWithTok as bs

/-- Boolean substring search, the shallow embedding of
`std::string::find(needle) != std::string::npos`. -/
def hasSubstr (needle : Str) : Str → Bool
  | [] => needle.isEmpty
  | c :: rest => startsWithTok needle (c :: rest) || hasSubstr needle rest

/-- Registry entry as stored by the C++ map: the (type tag, rendered value
text) pair `std::pair<std::string, std::string>`. -/
abbrev VarEntry := Str × Str

/-- The `variables_` member, `std::map<std::string, std::pair<...>>`:
modelled as an association list kept sorted by key. -/
abbrev Registry := List (Str × VarEntry)

/-- Lexicographic byte-wise comparison of strings, the `std::less` order
`std::map` keys are sorted by (`char_traits<char>::compare`, which compares
bytes; Lean `Char` order on codepoints plays that role here). -/
def ltChars : Str → Str → Bool
  | _, [] => false
  | [], _ :: _ => true
  | a :: as, b :: bs => if a < b then true else if b < a then false else ltChars as bs

/-- Ordered insert-or-overwrite, the effect of `variables_[name] = ...` on
the sorted association list. -/
def mapInsert (k : Str) (v : VarEntry) : Registry → Registry
  | [] => [(k, v)]
  | (k2, v2) :: rest =>
    if ltChars k k2 then (k, v) :: (k2, v2) :: rest
    else if ltChars k2 k then (k2, v2) :: mapInsert k v rest
    else (k, v) :: rest

/-- Lookup by key in the registry (the observable content of the map). -/
def mapFind (k : Str) : Registry → Option VarEntry
  | [] => none
  | (k2, v2) :: rest => if k = k2 then some v2 else mapFind k rest

/-- Decimal rendering of an `int`, as produced by `stringstream << value`. -/
def intStr (i : Int) : Str := (toString i).data

/-- Type tag stored by `add_int`. -/
def tagInt : Str := "int".data

/-- Type tag stored by `add_double`. -/
def tagDouble : Str := "double".data

/-- Type tag stored by `add_string`. -/
def tagString : Str := "string".data

/-- Type tag stored by `add_bool`. -/
def tagBool : Str := "bool".data

/-- Type tag stored by `add_int_vector`. -/
def tagIntVector : Str := "int_vector".data

/-- Type tag stored by `add_double_vector`. -/
def tagDoubleVector : Str := "double_vector".data

/-- Comma-separated join, the `if (i > 0) ss << ","; ss << elem` loop of the
vector setters and (via the first-entry flag) of `make_barrier_json`. -/
def commaJoin : List Str → Str
  | [] => []
  | x :: xs => x ++ xs.flatMap (fun y => ',' :: y)

/-- Bracketed comma-separated join, the full rendering of a vector value. -/
def bracketJoin (elems : List Str) : Str := '[' :: commaJoin elems ++ [']']

/-- State of one `Barrier` instance: its four data members. -/
structure BarrierState where
  program_id_ : Str
  socket_fd_ : Int
  connected_ : Bool
  variables_ : Registry

/-- One I/O action performed on the socket. -/
inductive IOAction
  | sendMsg (msg : Str)
  | recvCall
  | closeFd (fd : Int)
deriving DecidableEq

/-- The `std::runtime_error` throw sites of the client, one constructor per
`throw` in the source (spec taxonomy: the first is `ConfigurationError`,
the next three are `ConnectionError`, the last is `NotConnectedError`). -/
inductive CtError
  | configMissing
  | socketCreateFailed
  | connectFailed
  | initSendFailed
  | notConnected
deriving DecidableEq

/-- `Barrier::add_int`: renders the value in decimal and stores it under
the `int` tag. -/
def add_int (name : Str) (value : Int) (s : BarrierState) : BarrierState :=
  { s with variables_ := mapInsert name (tagInt, intStr value) s.variables_ }

/-- `Barrier::add_double`: the C++ streams the `double` through
`operator<<`; the resulting numeric text is taken as a parameter here,
abstracting the IEEE-754 formatting, and is stored under the `double` tag. -/
def add_double (name : Str) (valueText : Str) (s : BarrierState) : BarrierState :=
  { s with variables_ := mapInsert name (tagDouble, valueText) s.variables_ }

/-- `Barrier::add_string`: stores the raw value under the `string` tag
(quoting and escaping happen later, in `make_barrier_json`). -/
def add_string (name : Str) (value : Str) (s : BarrierState) : BarrierState :=
  { s with variables_ := mapInsert name (tagString, value) s.variables_ }

/-- `Barrier::add_bool`: stores `true` or `false` under the `bool` tag. -/
def add_bool (name : Str) (value : Bool) (s : BarrierState) : BarrierState :=
  { s with variables_ :=
      mapInsert name (tagBool, if value then "true".data else "false".data) s.variables_ }

/-- `Barrier::add_int_vector`: renders the elements in decimal, brackets
and comma-separates them, and stores the text under the `int_vector` tag. -/
def add_int_vector (name : Str) (values : List Int) (s : BarrierState) : BarrierState :=
  { s with variables_ :=
      mapInsert name (tagIntVector, bracketJoin (values.map intStr)) s.variables_ }

/-- `Barrier::add_double_vector`: as `add_double`, the element texts stand
for the streamed doubles; they are bracketed, comma-separated and stored
under the `double_vector` tag. -/
def add_double_vector (name : Str) (valueTexts : List Str) (s : BarrierState) : BarrierState :=
  { s with variables_ :=
      mapInsert name (tagDoubleVector, bracketJoin valueTexts) s.variables_ }

/-- One serialized variable of `make_barrier_json`: quoted escaped name,
colon, and the stored value text, which is quoted and escaped first when
the stored tag is `string`. -/
def encodeEntry (name : Str) (e : VarEntry) : Str :=
  '\"' :: escape_json_string name ++ '\"' :: ':' ::
    (if e.1 = tagString then '\"' :: escape_json_string e.2 ++ ['\"'] else e.2)

/-- The variable loop of `make_barrier_json`, with its first-entry flag
controlling the separating comma. -/
def entriesJson : Bool → Registry → Str
  | _, [] => []
  | first, (n, e) :: rest =>
    (if first then [] else [',']) ++ encodeEntry n e ++ entriesJson false rest

/-- `Barrier::make_barrier_json`: the exact byte string the `wait` call
sends for a given barrier identifier and registry contents. -/
def make_barrier_json (barrier_id : Str) (vars : Registry) : Str :=
  "\x7b\"barrier_id\":\"".data ++ barrier_id ++ "\",\"variables\":\x7b".data ++
    entriesJson true vars ++ "\x7d\x7d".data

/-- The success token `"status":"success"` searched for in the reply. -/
def successToken : Str := "\"status\":\"success\"".data

/-- Capacity passed to `recv`: `sizeof(buffer) - 1` with a 4096-byte
buffer, reserving one byte for the NUL terminator. -/
def bufCap : Nat := 4095

/-- Outcome of the socket calls a single `wait` makes: whether `send`
succeeds, and what `recv` yields (`none`: error, i.e. -1; `some []`: peer
closed, i.e. 0; `some l`, `l` nonempty: the peer's reply byte stream, of
which `recv` delivers at most `bufCap` bytes). -/
structure WaitEnv where
  send_ok : Bool
  recv_result : Option Str

/-- Boolean telling whether the modelled `recv` returns a positive count. -/
def recvDelivers (env : WaitEnv) : Bool :=
  match env.recv_result with
  | none => false
  | some l => !l.isEmpty

/-- `Barrier::wait`: throws when not connected; otherwise serializes the
registry, sends it, and receives a reply.  A failed send or a
non-positive receive returns `false` with the state unchanged.  On a
positive receive the buffer is NUL-terminated, so the response string is
the delivered bytes (at most `bufCap` of the stream) truncated at the
first NUL; the result is the substring check for the success token, and
the registry is cleared.  The third component is the I/O trace. -/
def wait (barrier_id : Str) (env : WaitEnv) (s : BarrierState) :
    Except CtError Bool × BarrierState × List IOAction :=
  if s.connected_ = false then (.error .notConnected, s, [])
  else
    let json := make_barrier_json barrier_id s.variables_
    if env.send_ok = false then (.ok false, s, [.sendMsg json])
    else
      match env.recv_result with
      | none => (.ok false, s, [.sendMsg json, .recvCall])
      | some l =>
        if l.isEmpty then (.ok false, s, [.sendMsg json, .recvCall])
        else
          let response := (l.take bufCap).takeWhile (fun c => c != nulChar)
          let success := hasSubstr successToken response
          (.ok success, { s with variables_ := [] }, [.sendMsg json, .recvCall])

/-- Outcome of the environment and socket calls made during construction:
the value of `getenv("CODETANGO_SOCKET")`, the descriptor `socket`
returns (`none`: -1), and whether `connect` and the handshake `send`
succeed. -/
structure ConnectEnv where
  socket_path : Option Str
  socket_fd : Option Int
  connect_ok : Bool
  send_ok : Bool

/-- The handshake message built in `Barrier::connect`. -/
def init_json (pid : Str) : Str :=
  "\x7b\"program_id\":\"".data ++ pid ++ "\"\x7d".data

/-- `Barrier::Barrier` / `Barrier::connect`: resolves the socket path from
the environment, creates the socket, connects, and sends the handshake,
throwing at the first failing step (closing the descriptor on the connect
and handshake-send failure paths).  On success the instance is connected
with an empty registry.  The second component is the I/O trace. -/
def connect (env : ConnectEnv) (program_id : Str) :
    Except CtError BarrierState × List IOAction :=
  match env.socket_path with
  | none => (.error .configMissing, [])
  | some _ =>
    match env.socket_fd with
    | none => (.error .socketCreateFailed, [])
    | some fd =>
      if env.connect_ok = false then (.error .connectFailed, [.closeFd fd])
      else if env.send_ok = false then
        (.error .initSendFailed, [.sendMsg (init_json program_id), .closeFd fd])
      else
        (.ok { program_id_ := program_id, socket_fd_ := fd,
               connected_ := true, variables_ := [] },
         [.sendMsg (init_json program_id)])

/-- `Barrier::~Barrier`: closes the socket when `connected_` is set.  Note
that the body leaves every member, `connected_` included, unchanged. -/
def teardown (s : BarrierState) : BarrierState × List IOAction :=
  if s.connected_ = true then (s, [.closeFd s.socket_fd_]) else (s, [])

/-- Spec-side tagged union over the six registrable value kinds (§3 of the
spec).  Double texts stand for the streamed textual rendering of the
corresponding IEEE-754 values, as in `add_double`. -/
inductive TypedValue
  | intVal (i : Int)
  | doubleVal (text : Str)
  | stringVal (s : Str)
  | boolVal (b : Bool)
  | intSeq (values : List Int)
  | doubleSeq (texts : List Str)

/-- What the C++ registry stores for each typed value: its tag string and
its pre-rendered value text. -/
def storedOf : TypedValue → VarEntry
  | .intVal i => (tagInt, intStr i)
  | .doubleVal t => (tagDouble, t)
  | .stringVal s => (tagString, s)
  | .boolVal b => (tagBool, if b then "true".data else "false".data)
  | .intSeq l => (tagIntVector, bracketJoin (l.map intStr))
  | .doubleSeq ts => (tagDoubleVector, bracketJoin ts)

/-- Modelled from the spec wording of §6: the wire encoding of one typed
value — Integer/Double as a bare JSON number text, String as a quoted
JSON string with standard escaping, Boolean as `true`/`false`, sequences
as JSON arrays of bare numbers, comma-separated with no whitespace. -/
def specEncodeValue : TypedValue → Str
  | .intVal i => intStr i
  | .doubleVal t => t
  | .stringVal s => '\"' :: escape_json_string s ++ ['\"']
  | .boolVal b => if b then "true".data else "false".data
  | .intSeq l => '[' :: commaJoin (l.map intStr) ++ [']']
  | .doubleSeq ts => '[' :: commaJoin ts ++ [']']

/-- Modelled from the spec wording of §6: the whole barrier request
message for the given typed variables, names JSON-string-escaped, entries
comma-separated with no surrounding whitespace. -/
def specBarrierMessage (barrier_id : Str) (tvs : List (Str × TypedValue)) : Str :=
  "\x7b\"barrier_id\":\"".data ++ barrier_id ++ "\",\"variables\":\x7b".data ++
    commaJoin (tvs.map (fun p => '\"' :: escape_json_string p.1 ++ '\"' :: ':' ::
      specEncodeValue p.2)) ++ "\x7d\x7d".data

/-- Spec-side mirror of `mapInsert` on typed variables. -/
def tvInsert (k : Str) (v : TypedValue) :
    List (Str × TypedValue) → List (Str × TypedValue)
  | [] => [(k, v)]
  | (k2, v2) :: rest =>
    if ltChars k k2 then (k, v) :: (k2, v2) :: rest
    else if ltChars k2 k then (k2, v2) :: tvInsert k v rest
    else (k, v) :: rest

/-- Registry contents reachable from the empty registry through the six
typed add operations. -/
inductive Reachable : Registry → Prop
  | empty : Reachable []
  | step (n : Str) (tv : TypedValue) {r : Registry} :
      Reachable r → Reachable (mapInsert n (storedOf tv) r)

/-- One typed add operation together with its arguments. -/
inductive AddOp
  | int (name : Str) (value : Int)
  | double (name : Str) (text : Str)
  | string (name : Str) (value : Str)
  | bool (name : Str) (value : Bool)
  | intVec (name : Str) (values : List Int)
  | doubleVec (name : Str) (texts : List Str)

/-- The variable name an add operation targets. -/
def AddOp.name : AddOp → Str
  | .int n _ => n
  | .double n _ => n
  | .string n _ => n
  | .bool n _ => n
  | .intVec n _ => n
  | .doubleVec n _ => n

/-- The registry entry an add operation stores. -/
def AddOp.stored : AddOp → VarEntry
  | .int _ v => (tagInt, intStr v)
  | .double _ t => (tagDouble, t)
  | .string _ v => (tagString, v)
  | .bool _ v => (tagBool, if v then "true".data else "false".data)
  | .intVec _ vs => (tagIntVector, bracketJoin (vs.map intStr))
  | .doubleVec _ ts => (tagDoubleVector, bracketJoin ts)

/-- Dispatch of an add operation to the corresponding setter. -/
def applyAdd : AddOp → BarrierState → BarrierState
  | .int n v, s => add_int n v s
  | .double n t, s => add_double n t s
  | .string n v, s => add_string n v s
  | .bool n v, s => add_bool n v s
  | .intVec n vs, s => add_int_vector n vs s
  | .doubleVec n ts, s => add_double_vector n ts s

theorem ltChars_irrefl (a : Str) : ltChars a a = false := by
  induction a with
  | nil => rfl
  | cons c t ih => simp [ltChars, ih]

theorem ltChars_ne {a b : Str} (h : ltChars a b = true) : a ≠ b := by
  intro he
  subst he
  rw [ltChars_irrefl] at h
  exact Bool.false_ne_true h

theorem ltChars_eq_of_not {a : Str} : ∀ {b : Str},
    ltChars a b = false → ltChars b a = false → a = b := by
  induction a with
  | nil =>
    intro b h1 _
    cases b with
    | nil => rfl
    | cons b0 bt => simp [ltChars] at h1
  | cons a0 t ih =>
    intro b h1 h2
    cases b with
    | nil => simp [ltChars] at h2
    | cons b0 bt =>
      simp only [ltChars] at h1 h2
      by_cases hab : a0 < b0
      · simp [hab] at h1
      · by_cases hba : b0 < a0
        · simp [hba, hab] at h2
        · have he : a0 = b0 := le_antisymm (not_lt.mp hba) (not_lt.mp hab)
          subst he
          simp [hab] at h1 h2
          rw [ih h1 h2]

theorem ltChars_trans {a : Str} : ∀ {b c : Str},
    ltChars a b = true → ltChars b c = true → ltChars a c = true := by
  induction a with
  | nil =>
    intro b c h1 h2
    cases c with
    | nil =>
      cases b with
      | nil => simp [ltChars] at h1
      | cons b0 bt => simp [ltChars] at h2
    | cons c0 ct => simp [ltChars]
  | cons a0 t ih =>
    intro b c h1 h2
    cases b with
    | nil => simp [ltChars] at h1
    | cons b0 bt =>
      cases c with
      | nil => simp [ltChars] at h2
      | cons c0 ct =>
        simp only [ltChars] at h1 h2 ⊢
        by_cases hab : a0 < b0
        · by_cases hbc : b0 < c0
          · simp [lt_trans hab hbc]
          · by_cases hcb : c0 < b0
            · simp [hbc, hcb] at h2
            · have he : b0 = c0 := le_antisymm (not_lt.mp hcb) (not_lt.mp hbc)
              subst he
              simp [hab]
        · by_cases hba : b0 < a0
          · simp [hab, hba] at h1
          · have he : a0 = b0 := le_antisymm (not_lt.mp hba) (not_lt.mp hab)
            subst he
            simp [hab] at h1
            by_cases hbc : a0 < c0
            · simp [hbc]
            · by_cases hcb : c0 < a0
              · simp [hbc, hcb] at h2
              · have he2 : a0 = c0 := le_antisymm (not_lt.mp hcb) (not_lt.mp hbc)
                subst he2
                simp [hbc] at h2
                simp [hbc, ih h1 h2]

theorem mapFind_insert_self (k : Str) (v : VarEntry) (r : Registry) :
    mapFind k (mapInsert k v r) = some v := by
  induction r with
  | nil => simp [mapInsert, mapFind]
  | cons p rest ih =>
    obtain ⟨k2, v2⟩ := p
    by_cases h1 : ltChars k k2 = true
    · simp [mapInsert, h1, mapFind]
    · by_cases h2 : ltChars k2 k = true
      · have hne : k ≠ k2 := fun he => ltChars_ne h2 he.symm
        simp [mapInsert, h1, h2, mapFind, hne, ih]
      · simp [mapInsert, h1, h2, mapFind]

theorem mapFind_insert_ne (k k2 : Str) (v : VarEntry) (r : Registry)
    (hne : k2 ≠ k) : mapFind k2 (mapInsert k v r) = mapFind k2 r := by
  induction r with
  | nil => simp [mapInsert, mapFind, hne]
  | cons p rest ih =>
    obtain ⟨k0, v0⟩ := p
    by_cases h1 : ltChars k k0 = true
    · simp [mapInsert, h1, mapFind, hne]
    · by_cases h2 : ltChars k0 k = true
      · by_cases h3 : k2 = k0
        · simp [mapInsert, h1, h2, mapFind, h3]
        · simp [mapInsert, h1, h2, mapFind, h3, ih]
      · have he : k = k0 := ltChars_eq_of_not
          (Bool.not_eq_true _ ▸ h1) (Bool.not_eq_true _ ▸ h2)
        subst he
        simp [mapInsert, h1, h2, mapFind, hne]

theorem mem_mapInsert {x : Str × VarEntry} {k : Str} {v : VarEntry} :
    ∀ {r : Registry}, x ∈ mapInsert k v r → x = (k, v) ∨ x ∈ r := by
  intro r
  induction r with
  | nil => simp [mapInsert]
  | cons p rest ih =>
    obtain ⟨k0, v0⟩ := p
    by_cases h1 : ltChars k k0 = true
    · simp [mapInsert, h1]
    · by_cases h2 : ltChars k0 k = true
      · simp [mapInsert, h1, h2]
        intro h
        rcases h with h | h
        · tauto
        · rcases ih h with h3 | h3 <;> tauto
      · simp [mapInsert, h1, h2]
        tauto

/-- Strict byte-lexicographic sortedness of the registry by variable name,
the `std::map` representation invariant. -/
def SortedReg (r : Registry) : Prop :=
  List.Pairwise (fun a b => ltChars a.1 b.1 = true) r

theorem mapInsert_sorted {k : Str} {v : VarEntry} :
    ∀ {r : Registry}, SortedReg r → SortedReg (mapInsert k v r) := by
  intro r
  induction r with
  | nil =>
    intro _
    simp [mapInsert, SortedReg]
  | cons p rest ih =>
    obtain ⟨k0, v0⟩ := p
    intro hs
    rcases (List.pairwise_cons.mp hs) with ⟨hhead, htail⟩
    by_cases h1 : ltChars k k0 = true
    · rw [SortedReg, mapInsert]
      simp only [h1, if_true]
      refine List.Pairwise.cons ?_ hs
      intro y hy
      rcases List.mem_cons.mp hy with hy0 | hy0
      · subst hy0; exact h1
      · exact ltChars_trans h1 (hhead y hy0)
    · by_cases h2 : ltChars k0 k = true
      · rw [SortedReg, mapInsert]
        simp only [h1, h2, if_false, if_true]
        refine List.Pairwise.cons ?_ (ih htail)
        intro y hy
        rcases mem_mapInsert hy with hy0 | hy0
        · subst hy0; exact h2
        · exact hhead y hy0
      · have he : k = k0 := ltChars_eq_of_not
          (Bool.not_eq_true _ ▸ h1) (Bool.not_eq_true _ ▸ h2)
        subst he
        rw [SortedReg, mapInsert]
        simp only [h1, h2, if_false]
        exact List.Pairwise.cons hhead htail

theorem reachable_sorted {r : Registry} (h : Reachable r) : SortedReg r := by
  induction h with
  | empty => exact List.Pairwise.nil
  | step n tv _ ih => exact mapInsert_sorted ih

theorem startsWithTok_iff {n : Str} : ∀ {h : Str},
    startsWithTok n h = true ↔ ∃ t, h = n ++ t := by
  induction n with
  | nil =>
    intro h
    constructor
    · intro _
      exact ⟨h, rfl⟩
    · intro _
      rfl
  | cons c t ih =>
    intro h
    cases h with
    | nil =>
      constructor
      · intro hx
        exact absurd hx (by simp [startsWithTok])
      · rintro ⟨u, hu⟩
        simp at hu
    | cons h0 ht =>
      constructor
      · intro hx
        simp only [startsWithTok, Bool.and_eq_true, decide_eq_true_eq] at hx
        rcases ih.mp hx.2 with ⟨u, hu⟩
        exact ⟨u, by simp [hu, hx.1]⟩
      · rintro ⟨u, hu⟩
        simp only [List.cons_append, List.cons.injEq] at hu
        simp only [startsWithTok, Bool.and_eq_true, decide_eq_true_eq]
        exact ⟨hu.1.symm, ih.mpr ⟨u, hu.2⟩⟩

theorem startsWithTok_self_append (n t : Str) : startsWithTok n (n ++ t) = true :=
  startsWithTok_iff.mpr ⟨t, rfl⟩

theorem hasSubstr_iff {n : Str} : ∀ {h : Str},
    hasSubstr n h = true ↔ ∃ u v, h = u ++ n ++ v := by
  intro h
  induction h with
  | nil =>
    constructor
    · intro hx
      have hn : n = [] := List.isEmpty_iff.mp (by simpa [hasSubstr] using hx)
      exact ⟨[], [], by simp [hn]⟩
    · rintro ⟨u, v, huv⟩
      have h1 := List.append_eq_nil.mp huv.symm
      have h2 := List.append_eq_nil.mp h1.1
      simp [hasSubstr, h2.2]
  | cons c rest ih =>
    constructor
    · intro hx
      simp only [hasSubstr, Bool.or_eq_true] at hx
      rcases hx with hx | hx
      · rcases startsWithTok_iff.mp hx with ⟨t, ht⟩
        exact ⟨[], t, by simp [ht]⟩
      · rcases ih.mp hx with ⟨u, v, huv⟩
        exact ⟨c :: u, v, by simp [huv]⟩
    · rintro ⟨u, v, huv⟩
      simp only [hasSubstr, Bool.or_eq_true]
      cases u with
      | nil =>
        refine Or.inl (startsWithTok_iff.mpr ⟨v, ?_⟩)
        simpa using huv
      | cons u0 ut =>
        simp only [List.cons_append, List.cons.injEq] at huv
        exact Or.inr (ih.mpr ⟨ut, v, huv.2⟩)

theorem hexVal_hexDigitChar : ∀ m < 16, hexVal (hexDigitChar m) = some m := by
  decide

theorem unescape_u4 (m : Nat) (hm : m ≤ 31) (rest : Str) :
    unescape_json ('\\' :: 'u' :: hexDigitChar 0 :: hexDigitChar 0 ::
      hexDigitChar (m / 16) :: hexDigitChar (m % 16) :: rest) =
      (unescape_json rest).map (fun r => Char.ofNat m :: r) := by
  have e0 : hexVal (hexDigitChar 0) = some 0 := hexVal_hexDigitChar 0 (by omega)
  have e3 : hexVal (hexDigitChar (m / 16)) = some (m / 16) :=
    hexVal_hexDigitChar _ (by omega)
  have e4 : hexVal (hexDigitChar (m % 16)) = some (m % 16) :=
    hexVal_hexDigitChar _ (by omega)
  rw [unescape_json.eq_def]
  simp only [Char.reduceEq, reduceIte, e0, e3, e4]
  have hv : ((0 * 16 + 0) * 16 + m / 16) * 16 + m % 16 = m := by omega
  rw [hv]

theorem unescape_escChar (c : Char) (rest : Str) :
    unescape_json (escChar c ++ rest) =
      (unescape_json rest).map (fun r => c :: r) := by
  by_cases h1 : c = '\"'
  · subst h1
    simp only [escChar, Char.reduceEq, reduceIte, List.cons_append, List.nil_append]
    rw [unescape_json.eq_def]
    simp only [Char.reduceEq, reduceIte]
  · by_cases h2 : c = '\\'
    · subst h2
      simp only [escChar, Char.reduceEq, reduceIte, List.cons_append, List.nil_append]
      rw [unescape_json.eq_def]
      simp only [Char.reduceEq, reduceIte]
    · by_cases h3 : c = '\x08'
      · subst h3
        simp only [escChar, Char.reduceEq, reduceIte, List.cons_append, List.nil_append]
        rw [unescape_json.eq_def]
        simp only [Char.reduceEq, reduceIte]
      · by_cases h4 : c = '\x0c'
        · subst h4
          simp only [escChar, Char.reduceEq, reduceIte, List.cons_append, List.nil_append]
          rw [unescape_json.eq_def]
          simp only [Char.reduceEq, reduceIte]
        · by_cases h5 : c = '\n'
          · subst h5
            simp only [escChar, Char.reduceEq, reduceIte, List.cons_append, List.nil_append]
            rw [unescape_json.eq_def]
            simp only [Char.reduceEq, reduceIte]
          · by_cases h6 : c = '\r'
            · subst h6
              simp only [escChar, Char.reduceEq, reduceIte, List.cons_append, List.nil_append]
              rw [unescape_json.eq_def]
              simp only [Char.reduceEq, reduceIte]
            · by_cases h7 : c = '\t'
              · subst h7
                simp only [escChar, Char.reduceEq, reduceIte, List.cons_append, List.nil_append]
                rw [unescape_json.eq_def]
                simp only [Char.reduceEq, reduceIte]
              · by_cases h8 : c.toNat ≤ 31
                · have hd1 : c.toNat / 4096 % 16 = 0 := by omega
                  have hd2 : c.toNat / 256 % 16 = 0 := by omega
                  have hd3 : c.toNat / 16 % 16 = c.toNat / 16 := by omega
                  simp only [escChar, h1, h2, h3, h4, h5, h6, h7, h8, if_true,
                    if_false, hex4, hd1, hd2, hd3, List.cons_append,
                    List.nil_append]
                  rw [unescape_u4 c.toNat h8 rest, Char.ofNat_toNat]
                · simp only [escChar, h1, h2, h3, h4, h5, h6, h7, h8, if_false,
                    List.singleton_append]
                  rw [unescape_json.eq_def]
                  have hq : ¬(c = '\"' ∨ c.toNat ≤ 31) := by tauto
                  simp [h2, hq]

theorem unescape_escape (s : Str) :
    unescape_json (escape_json_string s) = some s := by
  induction s with
  | nil => rfl
  | cons c t ih =>
    show unescape_json (escChar c ++ escape_json_string t) = some (c :: t)
    rw [unescape_escChar, ih]
    rfl

theorem encodeEntry_storedOf (n : Str) (tv : TypedValue) :
    encodeEntry n (storedOf tv) =
      '\"' :: escape_json_string n ++ '\"' :: ':' :: specEncodeValue tv := by
  cases tv with
  | intVal i =>
    simp [encodeEntry, storedOf, specEncodeValue,
      show ¬tagInt = tagString from by decide]
  | doubleVal t =>
    simp [encodeEntry, storedOf, specEncodeValue,
      show ¬tagDouble = tagString from by decide]
  | stringVal v =>
    simp [encodeEntry, storedOf, specEncodeValue]
  | boolVal b =>
    simp [encodeEntry, storedOf, specEncodeValue,
      show ¬tagBool = tagString from by decide]
  | intSeq vs =>
    simp [encodeEntry, storedOf, specEncodeValue, bracketJoin,
      show ¬tagIntVector = tagString from by decide]
  | doubleSeq ts =>
    simp [encodeEntry, storedOf, specEncodeValue, bracketJoin,
      show ¬tagDoubleVector = tagString from by decide]

theorem entriesJson_false_flat (l : Registry) :
    entriesJson false l = l.flatMap (fun p => ',' :: encodeEntry p.1 p.2) := by
  induction l with
  | nil => rfl
  | cons p rest ih =>
    obtain ⟨n, e⟩ := p
    simp [entriesJson, ih]

theorem entriesJson_true_spec (tvs : List (Str × TypedValue)) :
    entriesJson true (tvs.map (fun p => (p.1, storedOf p.2))) =
      commaJoin (tvs.map (fun p => '\"' :: escape_json_string p.1 ++ '\"' :: ':' ::
        specEncodeValue p.2)) := by
  cases tvs with
  | nil => rfl
  | cons p ps =>
    obtain ⟨n, tv⟩ := p
    simp only [List.map_cons, entriesJson, entriesJson_false_flat, commaJoin,
      encodeEntry_storedOf, List.nil_append]
    rw [List.cons_append]
    congr 1
    induction ps with
    | nil => rfl
    | cons q qs ih =>
      obtain ⟨n2, tv2⟩ := q
      simp only [List.map_cons, List.flatMap_cons, encodeEntry_storedOf, ih]

theorem make_barrier_json_spec (barrier_id : Str) (tvs : List (Str × TypedValue)) :
    make_barrier_json barrier_id (tvs.map (fun p => (p.1, storedOf p.2))) =
      specBarrierMessage barrier_id tvs := by
  simp only [make_barrier_json, specBarrierMessage, entriesJson_true_spec]

theorem mapInsert_storedOf (k : Str) (v : TypedValue)
    (tvs : List (Str × TypedValue)) :
    mapInsert k (storedOf v) (tvs.map (fun p => (p.1, storedOf p.2))) =
      (tvInsert k v tvs).map (fun p => (p.1, storedOf p.2)) := by
  induction tvs with
  | nil => rfl
  | cons p rest ih =>
    obtain ⟨k2, v2⟩ := p
    by_cases h1 : ltChars k k2 = true
    · simp [mapInsert, tvInsert, h1]
    · by_cases h2 : ltChars k2 k = true
      · simp [mapInsert, tvInsert, h1, h2, ih]
      · simp [mapInsert, tvInsert, h1, h2]

theorem reachable_repr {r : Registry} (h : Reachable r) :
    ∃ tvs : List (Str × TypedValue),
      r = tvs.map (fun p => (p.1, storedOf p.2)) := by
  induction h with
  | empty => exact ⟨[], rfl⟩
  | step n tv _ ih =>
    rcases ih with ⟨tvs, htvs⟩
    exact ⟨tvInsert n tv tvs, by rw [htvs, mapInsert_storedOf]⟩

theorem sortedReg_names_nodup {r : Registry} (hs : SortedReg r) :
    (r.map Prod.fst).Nodup := by
  refine List.pairwise_map.mpr ?_
  exact hs.imp (fun h => ltChars_ne h)

/-- C2: on a client that is not in the Connected state, `wait` raises the
not-connected error, performs no I/O on the connection, and leaves the
variable registry (indeed the whole state) unchanged. -/
theorem wait_not_connected (barrier_id : Str) (env : WaitEnv) (s : BarrierState)
    (h : s.connected_ = false) :
    wait barrier_id env s = (.error .notConnected, s, []) := by
  simp [wait, h]

/-- Witness for `wait_not_connected` at a concrete unconnected state. -/
theorem wait_not_connected_witness :
    wait "b1".data ⟨true, some "x".data⟩
        ⟨"p".data, 3, false, [("x".data, tagInt, intStr 1)]⟩ =
      (.error .notConnected,
        ⟨"p".data, 3, false, [("x".data, tagInt, intStr 1)]⟩, []) :=
  wait_not_connected _ _ _ rfl

/-- C1 counterexample: a connected client with one registered variable whose
`send` fails returns `false` from `wait` with the registry still holding
that entry, so the registry does not contain zero entries after every
`wait` return. -/
theorem wait_send_failure_keeps_registry :
    (wait "b1".data ⟨false, none⟩
        ⟨"p".data, 3, true, [("x".data, tagInt, intStr 1)]⟩).1 = .ok false ∧
    (wait "b1".data ⟨false, none⟩
        ⟨"p".data, 3, true, [("x".data, tagInt, intStr 1)]⟩).2.1.variables_ ≠ [] := by
  decide

/-- C1 amended: after a `wait` call on a connected client the registry is
empty exactly when the send succeeded and the receive returned a positive
byte count; on the send-failure and receive-failure paths `wait` returns
`false` and leaves the registry unchanged. -/
theorem wait_registry_reset (barrier_id : Str) (env : WaitEnv) (s : BarrierState)
    (h : s.connected_ = true) :
    (wait barrier_id env s).2.1.variables_ =
      (if env.send_ok && recvDelivers env then [] else s.variables_) ∧
    ((env.send_ok && recvDelivers env) = false →
      (wait barrier_id env s).1 = .ok false) := by
  obtain ⟨so, rr⟩ := env
  cases so with
  | false => simp [wait, h, recvDelivers]
  | true =>
    cases rr with
    | none => simp [wait, h, recvDelivers]
    | some l =>
      cases hl : l.isEmpty with
      | true => simp [wait, h, recvDelivers, hl]
      | false => simp [wait, h, recvDelivers, hl]

/-- Witness for `wait_registry_reset` at a concrete send-failure call. -/
theorem wait_registry_reset_witness :
    (wait "b1".data ⟨false, none⟩
        ⟨"p".data, 3, true, [("x".data, tagInt, intStr 1)]⟩).2.1.variables_ =
      (if (false : Bool) && recvDelivers ⟨false, none⟩ then []
       else [("x".data, tagInt, intStr 1)]) :=
  (wait_registry_reset "b1".data ⟨false, none⟩
    ⟨"p".data, 3, true, [("x".data, tagInt, intStr 1)]⟩ rfl).1

/-- C3 counterexample: a delivered reply whose success token sits after an
embedded NUL byte contains the token, yet `wait` returns `false`, so
"returns true iff the received reply bytes contain the token" fails. -/
theorem wait_nul_reply_counterexample :
    (wait "b1".data ⟨true, some (nulChar :: successToken)⟩
        ⟨"p".data, 3, true, []⟩).1 = .ok false ∧
    hasSubstr successToken (nulChar :: successToken) = true := by
  decide

/-- C3 amended: on a connected client whose send succeeds and whose receive
returns a positive byte count, `wait` returns `true` iff the delivered
bytes (at most `bufCap` of the reply stream) truncated at the first NUL
contain the success token as a substring. -/
theorem wait_success_iff (barrier_id : Str) (env : WaitEnv) (s : BarrierState)
    (l : Str) (hc : s.connected_ = true) (hs : env.send_ok = true)
    (hr : env.recv_result = some l) (hne : l ≠ []) :
    ((wait barrier_id env s).1 = .ok true ↔
      ∃ u v, (l.take bufCap).takeWhile (fun c => c != nulChar) =
        u ++ successToken ++ v) := by
  have hl : l.isEmpty = false := by
    cases l with
    | nil => exact absurd rfl hne
    | cons a t => rfl
  have hw : (wait barrier_id env s).1 =
      .ok (hasSubstr successToken
        ((l.take bufCap).takeWhile (fun c => c != nulChar))) := by
    simp [wait, hc, hs, hr, hl]
  rw [hw]
  simp only [Except.ok.injEq]
  exact hasSubstr_iff

/-- Witness for `wait_success_iff` at a concrete reply equal to the token. -/
theorem wait_success_iff_witness :
    (wait "b1".data ⟨true, some successToken⟩ ⟨"p".data, 3, true, []⟩).1 =
        .ok true ↔
      ∃ u v, (successToken.take bufCap).takeWhile (fun c => c != nulChar) =
        u ++ successToken ++ v :=
  wait_success_iff "b1".data ⟨true, some successToken⟩ ⟨"p".data, 3, true, []⟩
    successToken rfl rfl rfl (by decide)

/-- C10: `wait` inspects at most the first `bufCap` = 4095 bytes the single
`recv` delivers and truncates them at the first NUL; if every occurrence
of the success token in the reply stream starts at offset 4078 or later,
or after an embedded NUL, `wait` returns `false` even though the reply
contains the token. -/
theorem wait_reply_truncation (barrier_id : Str) (env : WaitEnv)
    (s : BarrierState) (l : Str) (hc : s.connected_ = true)
    (hs : env.send_ok = true) (hr : env.recv_result = some l) (hne : l ≠ [])
    (hocc : hasSubstr successToken l = true)
    (hpos : ∀ p < l.length, startsWithTok successToken (l.drop p) = true →
      4078 ≤ p ∨ ∃ j, j < p ∧ l[j]? = some nulChar) :
    (wait barrier_id env s).1 = .ok false := by
  have hl : l.isEmpty = false := by
    cases l with
    | nil => exact absurd rfl hne
    | cons a t => rfl
  have hw : (wait barrier_id env s).1 =
      .ok (hasSubstr successToken
        ((l.take bufCap).takeWhile (fun c => c != nulChar))) := by
    simp [wait, hc, hs, hr, hl]
  rw [hw]
  cases hres : hasSubstr successToken
      ((l.take bufCap).takeWhile (fun c => c != nulChar)) with
  | false => rfl
  | true =>
    exfalso
    rcases hasSubstr_iff.mp hres with ⟨u, v, huv⟩
    have ht : ((l.take bufCap).takeWhile (fun c => c != nulChar)) ++
        ((l.take bufCap).dropWhile (fun c => c != nulChar) ++ l.drop bufCap) = l := by
      rw [← List.append_assoc, List.takeWhile_append_dropWhile, List.take_append_drop]
    have hdl : l.drop u.length = successToken ++
        (v ++ ((l.take bufCap).dropWhile (fun c => c != nulChar) ++ l.drop bufCap)) := by
      conv_lhs => rw [← ht, huv]
      rw [List.append_assoc, List.append_assoc]
      exact List.drop_left u _
    have hsw : startsWithTok successToken (l.drop u.length) = true := by
      rw [hdl]
      exact startsWithTok_self_append _ _
    have hrespl : ((l.take bufCap).takeWhile (fun c => c != nulChar)).length ≤
        l.length :=
      le_trans ((List.takeWhile_sublist _).length_le)
        (by rw [List.length_take]; omega)
    have hrlen : ((l.take bufCap).takeWhile (fun c => c != nulChar)).length ≤
        bufCap :=
      le_trans ((List.takeWhile_sublist _).length_le)
        (by rw [List.length_take]; omega)
    have hlen2 := congrArg List.length huv
    simp only [List.length_append] at hlen2
    have htok : successToken.length = 18 := by decide
    have hb : bufCap = 4095 := rfl
    have hplt : u.length < l.length := by omega
    rcases hpos u.length hplt hsw with hge | ⟨j, hj, hnul⟩
    · omega
    · have hjr : j < ((l.take bufCap).takeWhile (fun c => c != nulChar)).length := by
        omega
      have hlr : l[j]? =
          ((l.take bufCap).takeWhile (fun c => c != nulChar))[j]? := by
        conv_lhs => rw [← ht]
        simp [List.getElem?_append, hjr]
      have hnul2 : ((l.take bufCap).takeWhile (fun c => c != nulChar))[j]? =
          some nulChar := hlr ▸ hnul
      rcases List.getElem?_eq_some.mp hnul2 with ⟨hjl, hje⟩
      have hmem : nulChar ∈ (l.take bufCap).takeWhile (fun c => c != nulChar) := by
        have hm := List.getElem_mem hjl
        rwa [hje] at hm
      have hpred := List.mem_takeWhile_imp hmem
      simp at hpred

/-- Witness for `wait_reply_truncation`: a reply whose only token occurrence
sits after an embedded NUL. -/
theorem wait_reply_truncation_witness :
    (wait "b1".data ⟨true, some (nulChar :: successToken)⟩
        ⟨"p".data, 3, true, []⟩).1 = .ok false :=
  wait_reply_truncation "b1".data ⟨true, some (nulChar :: successToken)⟩
    ⟨"p".data, 3, true, []⟩ (nulChar :: successToken) rfl rfl rfl
    (by decide) (by decide) (by decide)

/-- C4: for every barrier identifier and reachable registry contents, the
message `make_barrier_json` encodes (and `wait` transmits) is exactly the
spec-described JSON object: escaped names, integers and (textualized)
doubles bare, strings quoted and escaped, booleans as true/false, and
sequences as bracketed comma-separated bare numbers, with no surrounding
whitespace. -/
theorem make_barrier_json_wire_format (barrier_id : Str) (r : Registry)
    (h : Reachable r) :
    ∃ tvs : List (Str × TypedValue),
      r = tvs.map (fun p => (p.1, storedOf p.2)) ∧
      make_barrier_json barrier_id r = specBarrierMessage barrier_id tvs := by
  rcases reachable_repr h with ⟨tvs, htvs⟩
  exact ⟨tvs, htvs, by rw [htvs, make_barrier_json_spec]⟩

/-- Witness for `make_barrier_json_wire_format` at a registry holding one
integer variable. -/
theorem make_barrier_json_wire_format_witness :
    ∃ tvs : List (Str × TypedValue),
      mapInsert "x".data (storedOf (.intVal 7)) [] =
        tvs.map (fun p => (p.1, storedOf p.2)) ∧
      make_barrier_json "b1".data (mapInsert "x".data (storedOf (.intVal 7)) []) =
        specBarrierMessage "b1".data tvs :=
  make_barrier_json_wire_format "b1".data _
    (Reachable.step "x".data (.intVal 7) Reachable.empty)

/-- C5: escaping round-trips — for every string (in particular those
containing quote, backslash, or control characters 0x00-0x1F), decoding
the output of `escape_json_string` with a standard JSON string decoder
yields exactly the original string. -/
theorem escape_json_string_roundtrip (s : Str)
    (h : ∃ c ∈ s, c = '\"' ∨ c = '\\' ∨ c.toNat ≤ 31) :
    unescape_json (escape_json_string s) = some s :=
  unescape_escape s

/-- Witness for `escape_json_string_roundtrip` on a string holding a quote,
a backslash and a NUL. -/
theorem escape_json_string_roundtrip_witness :
    unescape_json (escape_json_string ['\"', '\\', nulChar]) =
      some ['\"', '\\', nulChar] :=
  escape_json_string_roundtrip ['\"', '\\', nulChar] (by decide)

/-- C6: construction fails with the configuration error exactly when the
coordinator address is missing from the environment; it fails with one of
the connection errors (socket creation, connect, handshake send) exactly
when the address resolves but one of those steps fails; otherwise it
succeeds, sends exactly the handshake message built from the program
identifier, and leaves the client connected with an empty registry. -/
theorem connect_characterization (env : ConnectEnv) (pid : Str) :
    ((connect env pid).1 = .error .configMissing ↔ env.socket_path = none) ∧
    ((connect env pid).1 = .error .socketCreateFailed ∨
      (connect env pid).1 = .error .connectFailed ∨
      (connect env pid).1 = .error .initSendFailed ↔
        env.socket_path ≠ none ∧
          (env.socket_fd = none ∨ env.connect_ok = false ∨ env.send_ok = false)) ∧
    ((∃ s, (connect env pid).1 = .ok s) ↔
      env.socket_path ≠ none ∧ env.socket_fd ≠ none ∧
        env.connect_ok = true ∧ env.send_ok = true) ∧
    (∀ s, (connect env pid).1 = .ok s →
      s.connected_ = true ∧ s.program_id_ = pid ∧ s.variables_ = [] ∧
        (connect env pid).2 = [IOAction.sendMsg (init_json pid)]) := by
  obtain ⟨sp, sf, co, so⟩ := env
  cases sp <;> cases sf <;> cases co <;> cases so <;>
    simp [connect, init_json]

/-- Witness for `connect_characterization`: a fully successful environment
yields a connected state and the handshake send. -/
theorem connect_characterization_witness :
    ∀ s, (connect ⟨some "/tmp/s".data, some 3, true, true⟩ "p1".data).1 = .ok s →
      s.connected_ = true ∧ s.program_id_ = "p1".data ∧ s.variables_ = [] ∧
        (connect ⟨some "/tmp/s".data, some 3, true, true⟩ "p1".data).2 =
          [IOAction.sendMsg (init_json "p1".data)] :=
  (connect_characterization ⟨some "/tmp/s".data, some 3, true, true⟩ "p1".data).2.2.2

/-- C7 counterexample: the teardown body leaves `connected_` set, so
applying it a second time to the state it returns attempts a second close
of the same descriptor. -/
theorem teardown_twice_closes_again :
    (teardown ⟨"p".data, 3, true, []⟩).2 = [IOAction.closeFd 3] ∧
    (teardown (teardown ⟨"p".data, 3, true, []⟩).1).2 = [IOAction.closeFd 3] := by
  decide

/-- C7 amended: one application of the teardown body closes the connection
exactly when the client is connected and never faults, but it leaves the
whole state — the connected flag included — unchanged, so a repeated
application behaves identically (attempting another close); single-close
holds only because C++ runs the destructor at most once per instance. -/
theorem teardown_behavior (s : BarrierState) :
    (teardown s).1 = s ∧
    (teardown s).2 =
      (if s.connected_ = true then [IOAction.closeFd s.socket_fd_] else []) ∧
    teardown (teardown s).1 = teardown s := by
  by_cases h : s.connected_ = true <;> simp [teardown, h]

/-- C8: every registry reachable through the typed add operations lists its
variable names — the order in which `make_barrier_json` serializes them —
in strictly increasing lexicographic order, with each name occurring at
most once. -/
theorem registry_names_sorted (r : Registry) (h : Reachable r) :
    List.Pairwise (fun a b => ltChars a b = true) (r.map Prod.fst) ∧
    (r.map Prod.fst).Nodup := by
  have hs := reachable_sorted h
  exact ⟨List.pairwise_map.mpr hs, sortedReg_names_nodup hs⟩

/-- Witness for `registry_names_sorted` on a two-variable registry built in
reverse name order. -/
theorem registry_names_sorted_witness :
    List.Pairwise (fun a b => ltChars a b = true)
      ((mapInsert "a".data (storedOf (.boolVal true))
        (mapInsert "b".data (storedOf (.intVal 2)) [])).map Prod.fst) ∧
    ((mapInsert "a".data (storedOf (.boolVal true))
        (mapInsert "b".data (storedOf (.intVal 2)) [])).map Prod.fst).Nodup :=
  registry_names_sorted _
    (Reachable.step "a".data (.boolVal true)
      (Reachable.step "b".data (.intVal 2) Reachable.empty))

/-- C9: every typed add operation inserts or overwrites exactly the entry
for its target name (last write wins) and changes nothing else: no other
registry entry, nor the program identifier, socket descriptor, or
connected flag. -/
theorem add_frame (op : AddOp) (s : BarrierState) (k : Str)
    (hk : k ≠ op.name) :
    (applyAdd op s).program_id_ = s.program_id_ ∧
    (applyAdd op s).socket_fd_ = s.socket_fd_ ∧
    (applyAdd op s).connected_ = s.connected_ ∧
    mapFind op.name (applyAdd op s).variables_ = some op.stored ∧
    mapFind k (applyAdd op s).variables_ = mapFind k s.variables_ := by
  cases op <;>
    exact ⟨rfl, rfl, rfl, mapFind_insert_self _ _ _,
      mapFind_insert_ne _ _ _ _ hk⟩

/-- Witness for `add_frame`: adding an integer variable `x` at a concrete
state, observed at the unrelated name `y`. -/
theorem add_frame_witness :
    (applyAdd (.int "x".data 1) ⟨"p".data, 3, true, []⟩).program_id_ = "p".data ∧
    (applyAdd (.int "x".data 1) ⟨"p".data, 3, true, []⟩).socket_fd_ = 3 ∧
    (applyAdd (.int "x".data 1) ⟨"p".data, 3, true, []⟩).connected_ = true ∧
    mapFind (AddOp.int "x".data 1).name
      (applyAdd (.int "x".data 1) ⟨"p".data, 3, true, []⟩).variables_ =
        some (AddOp.int "x".data 1).stored ∧
    mapFind "y".data
      (applyAdd (.int "x".data 1) ⟨"p".data, 3, true, []⟩).variables_ =
        mapFind "y".data ([] : Registry) :=
  add_frame (.int "x".data 1) ⟨"p".data, 3, true, []⟩ "y".data (by decide)

end Codetango
